import Mathlib

/-!
Shallow embedding of the prettytable-rs core (src/cell.rs, src/row.rs,
src/format.rs, src/lib.rs, src/tree.rs, src/utils.rs) and proofs about it.

Modelling conventions:
* Rust `String`/`&str` values are `List Char`; output streams are `List Char`
  (each `write` appends); the `tree` module keeps Lean `String` for its
  output, matching `level_to_string` returning a `String`.
* Unicode display width (`unicode_width::UnicodeWidthStr::width`) is the sum
  of a per-character width function `cw : Char → Nat`, standing for
  `UnicodeWidthChar::width(c).unwrap_or(0)`; the embedding is parametric in
  `cw`.
* `NEWLINE` is the non-Windows `"\n"` byte string.
* Fallible operations return the mutated-or-unchanged state plus an
  `Option String` error, mirroring in-place mutation that is skipped on the
  error path; Rust panics and non-termination are modelled as `Option.none`
  results.
-/

namespace PrettyTable

/-! ## Definitions (the embedding of the source) -/

/-- Alignment for cell content (format.rs `Alignment`). -/
inductive Alignment where
  | LEFT
  | CENTER
  | RIGHT
deriving Repr, DecidableEq

/-- Display width of a string: sum of the per-character width `cw`
(`UnicodeWidthStr::width`). -/
def strWidth (cw : Char → Nat) : List Char → Nat
  | [] => 0
  | c :: cs => cw c + strWidth cw cs

/-- Rust `str::split_inclusive('\n')`: split into groups each ending with
the newline (kept), the final group possibly without one; the empty string
yields no groups. -/
def rustSplitInclusive : List Char → List (List Char)
  | [] => []
  | x :: xs =>
    match rustSplitInclusive xs with
    | [] => [[x]]
    | h :: t => if x = '\n' then [x] :: h :: t else (x :: h) :: t

/-- Drop one trailing occurrence of `c` (Rust `str::strip_suffix`,
falling back to the unchanged string). -/
def stripTrail (c : Char) (l : List Char) : List Char :=
  match l.getLast? with
  | some x => if x = c then l.dropLast else l
  | none => l

/-- The per-line cleanup done by Rust `str::lines`: strip one trailing
`'\n'`, and if one was stripped also strip one trailing `'\r'`. -/
def rustLineMap (l : List Char) : List Char :=
  match l.getLast? with
  | some x => if x = '\n' then stripTrail '\r' l.dropLast else l
  | none => l

/-- Rust `str::lines()`: `split_inclusive('\n')` then strip the line
terminators.  Note `rustLines [] = []`. -/
def rustLines (s : List Char) : List (List Char) :=
  (rustSplitInclusive s).map rustLineMap

/-- Colors of the `term` crate (`term::color` constants). -/
abbrev Color := Nat

namespace color

def BLACK : Color := 0

def RED : Color := 1

def GREEN : Color := 2

def YELLOW : Color := 3

def BLUE : Color := 4

def MAGENTA : Color := 5

def CYAN : Color := 6

def WHITE : Color := 7

def BRIGHT_BLACK : Color := 8

def BRIGHT_RED : Color := 9

def BRIGHT_GREEN : Color := 10

def BRIGHT_YELLOW : Color := 11

def BRIGHT_BLUE : Color := 12

def BRIGHT_MAGENTA : Color := 13

def BRIGHT_CYAN : Color := 14

def BRIGHT_WHITE : Color := 15

end color

/-- Style attributes of the `term` crate used by `Cell` (`term::Attr`). -/
inductive Attr where
  | Bold
  | Italic (b : Bool)
  | Underline (b : Bool)
  | ForegroundColor (c : Color)
  | BackgroundColor (c : Color)
deriving Repr, DecidableEq

/-- A table cell (cell.rs `Cell`): lines of content, cached max display
width, alignment and style attributes. -/
structure Cell where
  content : List (List Char)
  width : Nat
  align : Alignment
  style : List Attr
deriving Repr, DecidableEq

/-- The width computation inside `Cell::new_align`: running maximum of the
display widths of the content lines. -/
def cellWidthLoop (cw : Char → Nat) (content : List (List Char)) : Nat :=
  content.foldl (fun width cont => if width < strWidth cw cont then strWidth cw cont else width) 0

/-- `Cell::new_align`: split the string into lines and compute the max
display width. -/
def Cell.new_align (cw : Char → Nat) (string : List Char) (align : Alignment) : Cell :=
  { content := rustLines string
    width := cellWidthLoop cw (rustLines string)
    align := align
    style := [] }

/-- `Cell::new`: `new_align` with LEFT alignment. -/
def Cell.new (cw : Char → Nat) (string : List Char) : Cell :=
  Cell.new_align cw string Alignment.LEFT

/-- `Cell::align` (setter method; named apart from the field). -/
def Cell.set_align (c : Cell) (align : Alignment) : Cell :=
  { c with align := align }

/-- `Cell::style` (push one attribute; named apart from the field). -/
def Cell.add_style (c : Cell) (attr : Attr) : Cell :=
  { c with style := c.style ++ [attr] }

/-- `Cell::reset_style`: clear the attributes and reset alignment to LEFT. -/
def Cell.reset_style (c : Cell) : Cell :=
  (Cell.set_align { c with style := [] } Alignment.LEFT)

/-- `Cell::get_height`: number of content lines. -/
def Cell.get_height (c : Cell) : Nat :=
  c.content.length

/-- `Cell::get_width`: the cached max display width. -/
def Cell.get_width (c : Cell) : Nat :=
  c.width

/-- `Cell::default()`: one empty line, width 0, LEFT. -/
def Cell.default : Cell :=
  { content := [[]], width := 0, align := Alignment.LEFT, style := [] }

/-- The color-specifier match inside `Cell::style_spec`; `none` is the
"silently ignore unknown tags" arm. -/
def parseColor : Char → Option Color
  | 'r' => some color.RED
  | 'R' => some color.BRIGHT_RED
  | 'b' => some color.BLUE
  | 'B' => some color.BRIGHT_BLUE
  | 'g' => some color.GREEN
  | 'G' => some color.BRIGHT_GREEN
  | 'y' => some color.YELLOW
  | 'Y' => some color.BRIGHT_YELLOW
  | 'c' => some color.CYAN
  | 'C' => some color.BRIGHT_CYAN
  | 'm' => some color.MAGENTA
  | 'M' => some color.BRIGHT_MAGENTA
  | 'w' => some color.WHITE
  | 'W' => some color.BRIGHT_WHITE
  | 'd' => some color.BLACK
  | 'D' => some color.BRIGHT_BLACK
  | _ => none

/-- One loop iteration of `Cell::style_spec`: state is the cell under
construction plus the `foreground`/`background` flags. -/
def styleSpecStep (st : Cell × Bool × Bool) (ch : Char) : Cell × Bool × Bool :=
  let c := st.1
  let foreground := st.2.1
  let background := st.2.2
  if foreground || background then
    match parseColor ch with
    | some col =>
      if foreground then (c.add_style (Attr.ForegroundColor col), false, false)
      else (c.add_style (Attr.BackgroundColor col), false, false)
    | none => (c, false, false)
  else
    if ch = 'F' then (c, true, background)
    else if ch = 'B' then (c, foreground, true)
    else if ch = 'b' then (c.add_style Attr.Bold, foreground, background)
    else if ch = 'i' then (c.add_style (Attr.Italic true), foreground, background)
    else if ch = 'u' then (c.add_style (Attr.Underline true), foreground, background)
    else if ch = 'c' then (c.set_align Alignment.CENTER, foreground, background)
    else if ch = 'l' then (c.set_align Alignment.LEFT, foreground, background)
    else if ch = 'r' then (c.set_align Alignment.RIGHT, foreground, background)
    else (c, foreground, background)

/-- `Cell::style_spec`: reset the style, then run the specifier state
machine over the characters of `spec`. -/
def Cell.style_spec (c : Cell) (spec : List Char) : Cell :=
  (spec.foldl styleSpecStep (c.reset_style, false, false)).1

/-- utils.rs `print_align` (the revision called by `Cell::print`, with the
`skip_right_fill` flag): pad `text` with `fill` to display width `size`. -/
def print_align (cw : Char → Nat) (align : Alignment) (text : List Char) (fill : Char)
    (size : Nat) (skip_right_fill : Bool) : List Char :=
  let text_len := strWidth cw text
  let nfill := if text_len < size then size - text_len else 0
  let n := match align with
    | Alignment.LEFT => 0
    | Alignment.RIGHT => nfill
    | Alignment.CENTER => nfill / 2
  List.replicate n fill ++ text
    ++ (if skip_right_fill then [] else List.replicate (nfill - n) fill)

/-- `Cell::print`: print line `idx` (empty if absent) aligned into
`col_width` columns. -/
def Cell.print (cw : Char → Nat) (c : Cell) (idx : Nat) (col_width : Nat)
    (skip_right_fill : Bool) : List Char :=
  print_align cw c.align (c.content.getD idx []) ' ' col_width skip_right_fill

/-- tree.rs `TreeNode`. -/
structure TreeNode where
  parent : Option Nat
  level : List Bool
  children : List Nat
deriving Repr, DecidableEq

/-- The glyph selected inside `level_to_string` for one level column
(`is_last_child`, `is_last_col`): EMPTY / EDGE / PIPE / BRANCH. -/
def levelGlyph (is_last_child is_last_col : Bool) : String :=
  match is_last_child, is_last_col with
  | true, false => "   "
  | true, true => " └─"
  | false, false => " │ "
  | false, true => " ├─"

/-- tree.rs `level_to_string`. -/
def level_to_string (level : List Bool) : String :=
  if level.isEmpty then ""
  else String.join (level.enum.map (fun ci => levelGlyph ci.2 (ci.1 == level.length - 1)))

/-- The climbing while-loop of `make_tree_by_reverse_depth_first`:
`while current.is_some() && !is_parent_of(&items[current.unwrap()], item)
{ current = nodes.get_mut(current.unwrap()).and_then(|n| n.parent) }`.
The Rust indexing `items[current.unwrap()]` panics when out of range; that
panic and a non-terminating loop (both impossible in real runs, see
`treeClimb_ok`) are modelled as `none`.  `some c` is the final value of
`current` after the loop. -/
def treeClimb {I : Type} (is_parent_of : I → I → Bool) (items : List I)
    (nodes : List TreeNode) (item : I) : Nat → Option Nat → Option (Option Nat)
  | _, none => some none
  | 0, some _ => none
  | fuel + 1, some cur =>
    match items[cur]? with
    | none => none
    | some p =>
      if is_parent_of p item then some (some cur)
      else treeClimb is_parent_of items nodes item fuel ((nodes[cur]?).bind TreeNode.parent)

/-- `nodes.get_mut(parent).map(|node| node.children.push(i))` — append `i`
to the children of node `p`, doing nothing if `p` is out of range. -/
def pushChild (nodes : List TreeNode) (p i : Nat) : List TreeNode :=
  match nodes[p]? with
  | none => nodes
  | some n => nodes.set p { n with children := n.children ++ [i] }

/-- The enumeration loop of `make_tree_by_reverse_depth_first`: `i` is the
index of the next item (always `nodes.length` in real runs), `current` the
most recently processed index.  The climb runs with fuel
`nodes.length + 1`, enough for any strictly decreasing parent chain. -/
def makeTreeGo {I : Type} (is_parent_of : I → I → Bool) (items : List I) :
    List I → Nat → Option Nat → List TreeNode → Option (List TreeNode)
  | [], _, _, nodes => some nodes
  | item :: rest, i, current, nodes =>
    match treeClimb is_parent_of items nodes item (nodes.length + 1) current with
    | none => none
    | some newCur =>
      let nodes2 := match newCur with
        | some p => pushChild nodes p i
        | none => nodes
      makeTreeGo is_parent_of items rest (i + 1) (some i)
        (nodes2 ++ [{ parent := newCur, level := [], children := [] }])

/-- tree.rs `make_tree_by_reverse_depth_first`. -/
def make_tree_by_reverse_depth_first {I : Type} (items : List I)
    (is_parent_of : I → I → Bool) : Option (List TreeNode) :=
  makeTreeGo is_parent_of items items 0 none []

/-- tree.rs `write_tree_level_of_children`: give every existing child of
node `idx` the level `parent.level ++ [d == 1]` with `d` counting down from
the number of children (so the last child gets `true`); `d` is decremented
only when the child index is in range, as in the source. -/
def write_tree_level_of_children (nodes : List TreeNode) (idx : Nat) : List TreeNode :=
  match nodes[idx]? with
  | none => nodes
  | some treenode =>
    (treenode.children.foldl
      (fun (st : List TreeNode × Nat) s =>
        match st.1[s]? with
        | none => st
        | some child =>
          (st.1.set s { child with level := treenode.level ++ [st.2 == 1] }, st.2 - 1))
      (nodes, treenode.children.length)).1

/-- tree.rs `provide_prefix`: build the forest, compute the levels of the
children of every node in order, and render each node's level. -/
def provide_prefix {I : Type} (items : List I) (is_parent_of : I → I → Bool) :
    Option (List String) :=
  match make_tree_by_reverse_depth_first items is_parent_of with
  | none => none
  | some nodes =>
    let nodes2 := (List.range nodes.length).foldl write_tree_level_of_children nodes
    some (nodes2.map (fun n => level_to_string n.level))

/-- The items of the documented tree example. -/
def treeExampleItems : List String := ["1", "1/2", "1/2/3", "1/4", "5", "5/6"]

/-- Path depth of a `/`-separated path: number of segments
(`s.split("/").count()`), i.e. one more than the number of slashes. -/
def pathDepth (s : String) : Nat :=
  (s.toList.filter (fun c => c == '/')).length + 1

/-- The predicate of the documented tree example: the candidate parent is
one level shallower and is a textual path prefix of the item. -/
def treeExamplePred (parent item : String) : Bool :=
  (pathDepth parent + 1 == pathDepth item) && parent.toList.isPrefixOf item.toList

/-- Invariant of the node list built by `makeTreeGo`: every parent link
points strictly downwards. -/
abbrev NodesInv (nodes : List TreeNode) : Prop :=
  ∀ (j : Nat) (n : TreeNode) (p : Nat), nodes[j]? = some n → n.parent = some p → p < j

/-- format.rs `LinePosition`. -/
inductive LinePosition where
  | Top
  | Title
  | Intern
  | Bottom
deriving Repr, DecidableEq

/-- format.rs `ColumnPosition`. -/
inductive ColumnPosition where
  | Left
  | Intern
  | Right
deriving Repr, DecidableEq

/-- format.rs `LineSeparator`. -/
structure LineSeparator where
  line : Char
  junc : Char
  ljunc : Char
  rjunc : Char
deriving Repr, DecidableEq

/-- `LineSeparator::default()`: `('-', '+', '+', '+')`. -/
def LineSeparator.default : LineSeparator :=
  { line := '-', junc := '+', ljunc := '+', rjunc := '+' }

/-- The column loop of `LineSeparator::print`: `width + 2` fill characters
per column (the `2` is hardcoded in this revision), with the junction
between columns only when `colsep` holds (peekable: not after the last). -/
def LineSeparator.printCols (ls : LineSeparator) (colsep : Bool) : List Nat → List Char
  | [] => []
  | [w] => List.replicate (w + 2) ls.line
  | w :: w2 :: ws =>
    List.replicate (w + 2) ls.line ++ (if colsep then [ls.junc] else [])
      ++ ls.printCols colsep (w2 :: ws)

/-- format.rs `LineSeparator::print`: left junction when `lborder`, the
column fills and junctions, right junction when `rborder`, then NEWLINE. -/
def LineSeparator.print (ls : LineSeparator) (col_width : List Nat)
    (colsep lborder rborder : Bool) : List Char :=
  (if lborder then [ls.ljunc] else []) ++ ls.printCols colsep col_width
    ++ (if rborder then [ls.rjunc] else []) ++ ['\n']

/-- format.rs `TableFormat`. -/
structure TableFormat where
  csep : Option Char
  lborder : Option Char
  rborder : Option Char
  lsep : Option LineSeparator
  tsep : Option LineSeparator
  top_sep : Option LineSeparator
  bottom_sep : Option LineSeparator
  pad_left : Nat
  pad_right : Nat
deriving Repr, DecidableEq

/-- `TableFormat::new()`: everything unset, padding 0. -/
def TableFormat.new : TableFormat :=
  { csep := none, lborder := none, rborder := none, lsep := none, tsep := none,
    top_sep := none, bottom_sep := none, pad_left := 0, pad_right := 0 }

/-- `TableFormat::get_padding`. -/
def TableFormat.get_padding (f : TableFormat) : Nat × Nat :=
  (f.pad_left, f.pad_right)

/-- `TableFormat::get_indent`.  Modelled from the spec: `Row::__print`
calls `format.get_indent()`, which is missing from this revision of
format.rs; `TableFormat` has no indent field, so global indentation is 0. -/
def TableFormat.get_indent (_ : TableFormat) : Nat := 0

/-- format.rs `TableFormat::get_sep_for_line`: Top/Intern/Bottom directly;
Title falls back to the internal separator when unset. -/
def TableFormat.get_sep_for_line (f : TableFormat) (pos : LinePosition) :
    Option LineSeparator :=
  match pos with
  | LinePosition.Intern => f.lsep
  | LinePosition.Top => f.top_sep
  | LinePosition.Bottom => f.bottom_sep
  | LinePosition.Title =>
    match f.tsep with
    | some s => some s
    | none => f.lsep

/-- format.rs `TableFormat::print_line_separator`: nothing at all when no
separator is configured for this position. -/
def TableFormat.print_line_separator (f : TableFormat) (col_width : List Nat)
    (pos : LinePosition) : List Char :=
  match f.get_sep_for_line pos with
  | some l => l.print col_width f.csep.isSome f.lborder.isSome f.rborder.isSome
  | none => []

/-- format.rs `TableFormat::get_column_separator`. -/
def TableFormat.get_column_separator (f : TableFormat) (pos : ColumnPosition) :
    Option Char :=
  match pos with
  | ColumnPosition.Left => f.lborder
  | ColumnPosition.Intern => f.csep
  | ColumnPosition.Right => f.rborder

/-- format.rs `TableFormat::print_column_separator`. -/
def TableFormat.print_column_separator (f : TableFormat) (pos : ColumnPosition) :
    List Char :=
  match f.get_column_separator pos with
  | some s => [s]
  | none => []

/-- row.rs `Row`. -/
structure Row where
  cells : List Cell
deriving Repr, DecidableEq

/-- `Row::new`. -/
def Row.new (cells : List Cell) : Row := { cells := cells }

/-- `Row::len`. -/
def Row.len (r : Row) : Nat := r.cells.length

/-- row.rs `Row::get_height`: max cell height, minimum 1. -/
def Row.get_height (r : Row) : Nat :=
  r.cells.foldl
    (fun height cell => if height < cell.get_height then cell.get_height else height) 1

/-- row.rs `Row::get_cell_width`: width of the cell at `column`, 0 when the
cell does not exist. -/
def Row.get_cell_width (r : Row) (column : Nat) : Nat :=
  ((r.cells[column]?).map Cell.get_width).getD 0

/-- `Row::get_cell`. -/
def Row.get_cell (r : Row) (idx : Nat) : Option Cell := r.cells[idx]?

/-- row.rs `Row::set_cell`: replace the cell at `column`; out-of-range
columns give a "Cannot find cell" error and leave the row unchanged. -/
def Row.set_cell (r : Row) (cell : Cell) (column : Nat) : Row × Option String :=
  if column ≥ r.len then (r, some "Cannot find cell")
  else ({ cells := r.cells.set column cell }, none)

/-- One display line `i` of row.rs `Row::__print` (with `Cell::print`):
indent, left border, then per column left padding, the cell (or
`Cell::default()` when the row is short) printed at `col_width[j]` with
trailing fill suppressed on the last column when there is no right border,
right padding, and the internal separator between columns; finally the
right border and NEWLINE. -/
def Row.printLine (cw : Char → Nat) (r : Row) (f : TableFormat) (col_width : List Nat)
    (i : Nat) : List Char :=
  List.replicate f.get_indent ' '
    ++ f.print_column_separator ColumnPosition.Left
    ++ (List.range col_width.length).foldl (fun acc j =>
        acc ++ List.replicate f.get_padding.1 ' '
          ++ Cell.print cw ((r.get_cell j).getD Cell.default) i (col_width.getD j 0)
               ((j == col_width.length - 1)
                 && (f.get_column_separator ColumnPosition.Right).isNone)
          ++ List.replicate f.get_padding.2 ' '
          ++ (if j < col_width.length - 1
              then f.print_column_separator ColumnPosition.Intern else [])) []
    ++ f.print_column_separator ColumnPosition.Right
    ++ ['\n']

/-- row.rs `Row::print`: `__print` over the row's height many lines. -/
def Row.print (cw : Char → Nat) (r : Row) (f : TableFormat) (col_width : List Nat) :
    List Char :=
  ((List.range r.get_height).map (Row.printLine cw r f col_width)).join

/-- lib.rs `Table` (the `Box`es elided). -/
structure Table where
  format : TableFormat
  titles : Option Row
  rows : List Row
deriving Repr, DecidableEq

/-- lib.rs `TableSlice` (the borrow modelled by value). -/
structure TableSlice where
  format : TableFormat
  titles : Option Row
  rows : List Row
deriving Repr, DecidableEq

/-- `AsRef<TableSlice>` for `Table`. -/
def Table.as_ref (t : Table) : TableSlice :=
  { format := t.format, titles := t.titles, rows := t.rows }

/-- lib.rs `TableSlice::get_column_num`: running maximum of the BODY row
lengths (the title row is not consulted in this revision). -/
def TableSlice.get_column_num (t : TableSlice) : Nat :=
  t.rows.foldl (fun cnum r => if cnum < r.len then r.len else cnum) 0

/-- lib.rs `TableSlice::get_column_width`: start from the title cell width
(0 when no titles), then running maximum over the rows. -/
def TableSlice.get_column_width (t : TableSlice) (col_idx : Nat) : Nat :=
  (t.rows.foldl
    (fun width r => if width < r.get_cell_width col_idx then r.get_cell_width col_idx else width)
    (match t.titles with
     | some tt => tt.get_cell_width col_idx
     | none => 0))

/-- lib.rs `TableSlice::get_all_column_width`: `vec![0; colnum]`, then each
slot overwritten with its column width. -/
def TableSlice.get_all_column_width (t : TableSlice) : List Nat :=
  (List.range t.get_column_num).foldl
    (fun col_width i => col_width.set i (t.get_column_width i))
    (List.replicate t.get_column_num 0)

/-- The body-row loop of `TableSlice::__print`: the Intern line separator
only between consecutive rows (peekable). -/
def printRows (cw : Char → Nat) (f : TableFormat) (colw : List Nat) : List Row → List Char
  | [] => []
  | [r] => Row.print cw r f colw
  | r :: r2 :: rs =>
    Row.print cw r f colw ++ f.print_line_separator colw LinePosition.Intern
      ++ printRows cw f colw (r2 :: rs)

/-- lib.rs `TableSlice::__print` with `Row::print` (i.e. `print`): compute
the widths, Top separator, optional title row plus Title separator, body
rows with Intern separators, Bottom separator (`flush` emits nothing). -/
def TableSlice.print (cw : Char → Nat) (t : TableSlice) : List Char :=
  let col_width := t.get_all_column_width
  t.format.print_line_separator col_width LinePosition.Top
    ++ (match t.titles with
        | some tt => Row.print cw tt t.format col_width
            ++ t.format.print_line_separator col_width LinePosition.Title
        | none => [])
    ++ printRows cw t.format col_width t.rows
    ++ t.format.print_line_separator col_width LinePosition.Bottom

/-- Rust range indexing `rows[a..b]` of a slice (in-range when
`a ≤ b ≤ len`). -/
def sliceRange {α : Type} (l : List α) (a b : Nat) : List α :=
  (l.take b).drop a

/-- lib.rs `Slice::slice` applied to a `Table` (through `as_ref`): share
format and titles, slice the row storage. -/
def Table.slice (t : Table) (a b : Nat) : TableSlice :=
  { format := t.format, titles := t.titles, rows := sliceRange t.rows a b }

/-- lib.rs `Slice::slice` applied to a `TableSlice`: indices are relative
to the slice. -/
def TableSlice.slice (sl : TableSlice) (a b : Nat) : TableSlice :=
  { format := sl.format, titles := sl.titles, rows := sliceRange sl.rows a b }

/-- lib.rs `Table::set_element`: locate the row (error "Cannot find row"
when absent), build the replacement cell with `Cell::new`, delegate to
`Row::set_cell`.  First component: the resulting table (unchanged on
error); second: the error. -/
def Table.set_element (cw : Char → Nat) (t : Table) (element : List Char)
    (column row : Nat) : Table × Option String :=
  match t.rows[row]? with
  | none => (t, some "Cannot find row")
  | some rowline =>
    let res := rowline.set_cell (Cell.new cw element) column
    ({ t with rows := t.rows.set row res.1 }, res.2)

/-- The format built by
`FormatBuilder::new().separator(LinePosition::Top, LineSeparator::default()).build()`:
a `-`/`+` top separator, no borders, no column separator, padding (0, 0). -/
def fmtTopOnly : TableFormat :=
  { TableFormat.new with top_sep := some LineSeparator.default }

/-- A table whose one-cell title row is longer than every body row. -/
def titleOnlyTable : Table :=
  { format := TableFormat.new
    titles := some (Row.new [Cell.new (fun _ => 1) "t1".toList])
    rows := [] }

/-- The column count as claim C4 states it: maximum row length over the
body rows AND the title row. -/
def claimColumnNum (t : TableSlice) : Nat :=
  ((t.rows.map Row.len)
    ++ (match t.titles with | some tt => [tt.len] | none => [])).foldr max 0

/-- A one-row, one-cell table for witnesses. -/
def exTable1 : Table :=
  { format := TableFormat.new
    titles := none
    rows := [Row.new [Cell.new (fun _ => 1) "a".toList]] }

/-- A three-row table for the slicing witness. -/
def exTable3 : Table :=
  { format := TableFormat.new
    titles := none
    rows := [Row.new [Cell.new (fun _ => 1) "r0".toList],
             Row.new [Cell.new (fun _ => 1) "r1".toList],
             Row.new [Cell.new (fun _ => 1) "r2".toList]] }

/-- format.rs consts `MINUS_PLUS_SEP` (same as `LineSeparator::default`). -/
def MINUS_PLUS_SEP : LineSeparator :=
  { line := '-', junc := '+', ljunc := '+', rjunc := '+' }

/-- format.rs consts `EQU_PLUS_SEP`. -/
def EQU_PLUS_SEP : LineSeparator :=
  { line := '=', junc := '+', ljunc := '+', rjunc := '+' }

/-- format.rs consts `FORMAT_DEFAULT`: `|` separators and borders, `-`/`+`
lines, `=`/`+` title line, padding (1, 1). -/
def FORMAT_DEFAULT : TableFormat :=
  { csep := some '|', lborder := some '|', rborder := some '|',
    lsep := some MINUS_PLUS_SEP, tsep := some EQU_PLUS_SEP,
    top_sep := some MINUS_PLUS_SEP, bottom_sep := some MINUS_PLUS_SEP,
    pad_left := 1, pad_right := 1 }

/-- The table of the lib.rs `tests::table` unit test. -/
def libTestTable : Table :=
  { format := FORMAT_DEFAULT
    titles := some (Row.new [Cell.new (fun _ => 1) "t1".toList,
                             Cell.new (fun _ => 1) "t2".toList,
                             Cell.new (fun _ => 1) "t3".toList])
    rows := [Row.new [Cell.new (fun _ => 1) "a".toList,
                      Cell.new (fun _ => 1) "bc".toList,
                      Cell.new (fun _ => 1) "def".toList],
             Row.new [Cell.new (fun _ => 1) "def".toList,
                      Cell.new (fun _ => 1) "bc".toList,
                      Cell.new (fun _ => 1) "a".toList]] }

/-! ## Theorems -/

example : (Cell.new (fun _ => 1) "".toList).get_height = 0 := by decide

example : (Cell.new (fun _ => 1) "a\nb".toList).get_height = 2 := by decide

example : (Cell.new (fun _ => 1) "hello".toList).get_width = 5 := by decide

example : Cell.print (fun _ => 1) (Cell.new (fun _ => 1) "hello".toList) 0 10 false
    = "hello     ".toList := by decide

example : Cell.print (fun _ => 1) (Cell.new_align (fun _ => 1) "test".toList Alignment.CENTER) 0 10 false
    = "   test   ".toList := by decide

example : Cell.print (fun _ => 1) (Cell.new_align (fun _ => 1) "test".toList Alignment.RIGHT) 0 10 false
    = "      test".toList := by decide

theorem rustSplitInclusive_ne_nil (x : Char) (xs : List Char) :
    rustSplitInclusive (x :: xs) ≠ [] := by
  simp only [rustSplitInclusive]
  split
  · simp
  · split <;> simp

theorem strWidth_append (cw : Char → Nat) (a b : List Char) :
    strWidth cw (a ++ b) = strWidth cw a + strWidth cw b := by
  induction a with
  | nil => simp [strWidth]
  | cons x xs ih => simp [strWidth, ih]; omega

theorem strWidth_replicate (cw : Char → Nat) (n : Nat) (c : Char) :
    strWidth cw (List.replicate n c) = n * cw c := by
  induction n with
  | zero => simp [strWidth]
  | succ m ih => simp [List.replicate, strWidth, ih]; ring

theorem init_le_foldl_max {α : Type} (f : α → Nat) :
    ∀ (l : List α) (a : Nat), a ≤ l.foldl (fun w y => max w (f y)) a
  | [], a => le_refl a
  | y :: ys, a => le_trans (le_max_left a (f y)) (init_le_foldl_max f ys _)

theorem le_foldl_max {α : Type} (f : α → Nat) :
    ∀ (l : List α) (a : Nat) (x : α), x ∈ l →
      f x ≤ l.foldl (fun w y => max w (f y)) a
  | y :: ys, a, x, h => by
    rcases List.mem_cons.mp h with rfl | h2
    · exact le_trans (le_max_right a (f x)) (init_le_foldl_max f ys _)
    · exact le_foldl_max f ys _ x h2

theorem cellWidthLoop_eq_foldl_max (cw : Char → Nat) (content : List (List Char)) :
    cellWidthLoop cw content = content.foldl (fun w l => max w (strWidth cw l)) 0 := by
  unfold cellWidthLoop
  congr 1
  funext w l
  rcases Nat.lt_or_ge w (strWidth cw l) with h | h
  · simp [h, Nat.max_eq_right (Nat.le_of_lt h)]
  · simp [Nat.not_lt.mpr h, Nat.max_eq_left h]

/-- Every content line of a freshly constructed cell fits in its width. -/
theorem line_width_le (cw : Char → Nat) (s : List Char) (a : Alignment) (idx : Nat) :
    strWidth cw ((Cell.new_align cw s a).content.getD idx []) ≤ (Cell.new_align cw s a).width := by
  simp only [Cell.new_align, cellWidthLoop_eq_foldl_max]
  rcases Nat.lt_or_ge idx (rustLines s).length with h | h
  · rw [List.getD_eq_get?, List.get?_eq_get h]
    exact le_foldl_max (strWidth cw) _ 0 _ (List.get_mem _ idx h)
  · rw [List.getD_eq_get?, List.get?_eq_none.mpr h]
    simp [strWidth]

/-- C1 counterexample: a cell built from the empty string has height 0, not
1 — Rust `"".lines()` yields no line at all, so `Cell::new("")` has empty
content. -/
theorem C1_empty_cell_height_zero :
    (Cell.new (fun _ => 1) "".toList).get_height = 0 := by decide

/-- C1 (amended): a cell constructed by `Cell::new_align` (hence also by
`Cell::new`) from a NONEMPTY string has `get_height() ≥ 1`; the empty
string is the single exception, giving height 0. -/
theorem C1_height_ge_one (cw : Char → Nat) (s : List Char) (a : Alignment)
    (h : s ≠ []) : 1 ≤ (Cell.new_align cw s a).get_height := by
  cases s with
  | nil => exact absurd rfl h
  | cons x xs =>
    have hne : rustSplitInclusive (x :: xs) ≠ [] := rustSplitInclusive_ne_nil x xs
    have hp : 0 < (rustSplitInclusive (x :: xs)).length := List.length_pos.mpr hne
    simpa [Cell.new_align, Cell.get_height, rustLines] using hp

theorem C1_height_ge_one_witness :
    ("x".toList ≠ ([] : List Char)) ∧
    1 ≤ (Cell.new_align (fun _ => 1) "x".toList Alignment.LEFT).get_height :=
  ⟨by decide, C1_height_ge_one (fun _ => 1) "x".toList Alignment.LEFT (by decide)⟩

/-- Core width computation for `print_align`: when the text fits, the
output spans exactly `size` display columns (fill character of width 1,
trailing fill not suppressed), for every alignment. -/
theorem print_align_width (cw : Char → Nat) (a : Alignment) (text : List Char) (W : Nat)
    (hsp : cw ' ' = 1) (h : strWidth cw text ≤ W) :
    strWidth cw (print_align cw a text ' ' W false) = W := by
  cases a <;>
    · simp only [print_align]
      rw [if_neg Bool.false_ne_true]
      simp only [strWidth_append, strWidth_replicate, hsp, Nat.mul_one]
      rcases Nat.lt_or_ge (strWidth cw text) W with hlt | hge
      · rw [if_pos hlt]; omega
      · rw [if_neg (Nat.not_lt.mpr hge)]; omega

/-- C6: printing any line of a constructed cell into a column of width at
least the cell's width, with trailing fill not suppressed, yields output of
display width exactly the column width, for every alignment.  `cw` is the
per-character display width, with the space filler of width 1. -/
theorem C6_print_width (cw : Char → Nat) (s : List Char) (a : Alignment) (idx W : Nat)
    (hsp : cw ' ' = 1) (hW : (Cell.new_align cw s a).get_width ≤ W) :
    strWidth cw (Cell.print cw (Cell.new_align cw s a) idx W false) = W := by
  have htl : strWidth cw ((Cell.new_align cw s a).content.getD idx []) ≤ W :=
    le_trans (line_width_le cw s a idx) hW
  exact print_align_width cw a _ W hsp htl

theorem C6_print_width_witness :
    ((fun _ : Char => 1) ' ' = 1) ∧
    ((Cell.new_align (fun _ => 1) "ab".toList Alignment.CENTER).get_width ≤ 5) ∧
    strWidth (fun _ => 1)
      (Cell.print (fun _ => 1) (Cell.new_align (fun _ => 1) "ab".toList Alignment.CENTER) 0 5 false) = 5 :=
  ⟨rfl, by decide,
    C6_print_width (fun _ => 1) "ab".toList Alignment.CENTER 0 5 rfl (by decide)⟩

theorem styleSpecStepCongr (c1 c2 : Cell) (f b : Bool) (ch : Char)
    (h1 : c1.style = c2.style) (h2 : c1.align = c2.align) :
    (styleSpecStep (c1, f, b) ch).1.style = (styleSpecStep (c2, f, b) ch).1.style ∧
    (styleSpecStep (c1, f, b) ch).1.align = (styleSpecStep (c2, f, b) ch).1.align ∧
    (styleSpecStep (c1, f, b) ch).2 = (styleSpecStep (c2, f, b) ch).2 := by
  by_cases hfb : (f || b) = true
  · cases hc : parseColor ch with
    | none => simp [styleSpecStep, hfb, hc, h1, h2]
    | some col =>
      by_cases hf : f = true
      · simp [styleSpecStep, hfb, hc, hf, h1, h2, Cell.add_style]
      · have hb : b = true := by
          cases f
          · simpa using hfb
          · exact absurd rfl hf
        simp [styleSpecStep, hfb, hc, hf, hb, h1, h2, Cell.add_style]
  · simp only [styleSpecStep, hfb, Bool.false_eq_true, if_false]
    split_ifs <;> simp [h1, h2, Cell.add_style, Cell.set_align]

theorem styleSpecFoldCongr :
    ∀ (s : List Char) (st1 st2 : Cell × Bool × Bool),
    st1.1.style = st2.1.style → st1.1.align = st2.1.align → st1.2 = st2.2 →
    (s.foldl styleSpecStep st1).1.style = (s.foldl styleSpecStep st2).1.style ∧
    (s.foldl styleSpecStep st1).1.align = (s.foldl styleSpecStep st2).1.align ∧
    (s.foldl styleSpecStep st1).2 = (s.foldl styleSpecStep st2).2
  | [], _, _, h1, h2, h3 => ⟨h1, h2, h3⟩
  | ch :: s, ⟨c1, f1, b1⟩, ⟨c2, f2, b2⟩, h1, h2, h3 => by
    obtain ⟨rfl, rfl⟩ : f1 = f2 ∧ b1 = b2 := by
      simpa [Prod.ext_iff] using h3
    have step := styleSpecStepCongr c1 c2 f1 b1 ch h1 h2
    have hrec := styleSpecFoldCongr s (styleSpecStep (c1, f1, b1) ch)
      (styleSpecStep (c2, f1, b1) ch) step.1 step.2.1 step.2.2
    simpa [List.foldl_cons] using hrec

/-- C10: `style_spec` resets all style state before parsing, so the
resulting attribute list and alignment depend only on the specifier string:
two arbitrary cells given the same specifier agree on both. -/
theorem C10_style_spec_uniform (c1 c2 : Cell) (s : List Char) :
    (c1.style_spec s).style = (c2.style_spec s).style ∧
    (c1.style_spec s).align = (c2.style_spec s).align := by
  have h := styleSpecFoldCongr s (c1.reset_style, false, false) (c2.reset_style, false, false)
    (by simp [Cell.reset_style, Cell.set_align]) (by simp [Cell.reset_style, Cell.set_align]) rfl
  exact ⟨h.1, h.2.1⟩

/-- C2: on the documented example, `provide_prefix` produces exactly the
documented prefixes. -/
theorem C2_tree_example :
    provide_prefix treeExampleItems treeExamplePred
      = some ["", " ├─", " │  └─", " └─", "", " └─"] := by decide

theorem foldl_preserve {α β : Type} (step : α → β → α) (P : α → Prop)
    (hstep : ∀ a b, P a → P (step a b)) :
    ∀ (l : List β) (a : α), P a → P (l.foldl step a)
  | [], _, h => h
  | b :: l, a, h => foldl_preserve step P hstep l (step a b) (hstep a b h)

theorem pushChild_length (nodes : List TreeNode) (p i : Nat) :
    (pushChild nodes p i).length = nodes.length := by
  unfold pushChild
  cases nodes[p]? <;> simp

theorem pushChild_parent (nodes : List TreeNode) (p i : Nat) :
    ∀ (j : Nat) (n : TreeNode), (pushChild nodes p i)[j]? = some n →
      ∃ n0, nodes[j]? = some n0 ∧ n0.parent = n.parent := by
  intro j n
  unfold pushChild
  cases hp : nodes[p]? with
  | none => exact fun h => ⟨n, h, rfl⟩
  | some np =>
    intro h
    by_cases hj : p = j
    · subst hj
      obtain ⟨hlt, -⟩ := List.getElem?_eq_some_iff.mp hp
      rw [List.getElem?_set_self hlt] at h
      cases Option.some.inj h
      exact ⟨np, hp, rfl⟩
    · rw [List.getElem?_set_ne hj] at h
      exact ⟨n, h, rfl⟩

theorem NodesInv_pushChild (nodes : List TreeNode) (p i : Nat) (h : NodesInv nodes) :
    NodesInv (pushChild nodes p i) := by
  intro j n q hn hq
  obtain ⟨n0, hn0, hpar⟩ := pushChild_parent nodes p i j n hn
  exact h j n0 q hn0 (hpar.trans hq)

theorem NodesInv_append (nodes : List TreeNode) (pr : Option Nat)
    (h : NodesInv nodes) (hb : ∀ x, pr = some x → x < nodes.length) :
    NodesInv (nodes ++ [{ parent := pr, level := [], children := [] }]) := by
  intro j n q hn hq
  rcases Nat.lt_trichotomy j nodes.length with hj | hj | hj
  · rw [List.getElem?_append_left hj] at hn
    exact h j n q hn hq
  · subst hj
    rw [List.getElem?_concat_length] at hn
    cases Option.some.inj hn
    exact hb q hq
  · rw [List.getElem?_eq_none (by simp; omega)] at hn
    cases hn

/-- The climb loop terminates within its fuel and never indexes out of
bounds, provided parent links go strictly downwards and `current` is a
valid node index; the result is an ancestor (hence a smaller index). -/
theorem treeClimb_ok {I : Type} (pred : I → I → Bool) (items : List I)
    (nodes : List TreeNode) (item : I) (hinv : NodesInv nodes)
    (hlen : nodes.length ≤ items.length) :
    ∀ (fuel c : Nat), c < nodes.length → c < fuel →
      ∃ r, treeClimb pred items nodes item fuel (some c) = some r ∧
        ∀ x, r = some x → x ≤ c := by
  intro fuel
  induction fuel with
  | zero => intro c _ hf; omega
  | succ fuel ih =>
    intro c hc hf
    obtain ⟨p, hp⟩ : ∃ p, items[c]? = some p := by
      cases hi : items[c]? with
      | none =>
        have := List.getElem?_eq_none_iff.mp hi
        omega
      | some p => exact ⟨p, rfl⟩
    by_cases hpred : pred p item = true
    · exact ⟨some c, by simp [treeClimb, hp, hpred],
        fun x hx => by cases Option.some.inj hx; exact le_refl c⟩
    · cases hnext : (nodes[c]?).bind TreeNode.parent with
      | none =>
        refine ⟨none, ?_, by simp⟩
        simp [treeClimb, hp, hpred, hnext]
      | some c2 =>
        have hc2 : c2 < c := by
          cases hn : nodes[c]? with
          | none => rw [hn] at hnext; cases hnext
          | some n =>
            rw [hn] at hnext
            exact hinv c n c2 hn hnext
        obtain ⟨r, hr, hrb⟩ := ih c2 (lt_trans hc2 hc) (by omega)
        refine ⟨r, ?_, fun x hx => le_trans (hrb x hx) (le_of_lt hc2)⟩
        simp [treeClimb, hp, hpred, hnext, hr]

/-- The main enumeration loop succeeds on every input and produces one node
per item, maintaining the downward-parent invariant. -/
theorem makeTreeGo_ok {I : Type} (pred : I → I → Bool) (items : List I) :
    ∀ (rest : List I) (nodes : List TreeNode) (current : Option Nat),
      NodesInv nodes →
      nodes.length + rest.length = items.length →
      (∀ c, current = some c → c < nodes.length) →
      ∃ ns, makeTreeGo pred items rest nodes.length current nodes = some ns ∧
        ns.length = nodes.length + rest.length
  | [], nodes, current, _, _, _ => ⟨nodes, rfl, by simp⟩
  | item :: rest, nodes, current, hinv, hcount, hcur => by
    have hlen : nodes.length ≤ items.length := by simp at hcount; omega
    obtain ⟨newCur, hclimb, hbound⟩ :
        ∃ r, treeClimb pred items nodes item (nodes.length + 1) current = some r ∧
          ∀ x, r = some x → x < nodes.length := by
      cases current with
      | none => exact ⟨none, rfl, by simp⟩
      | some c =>
        have hc : c < nodes.length := hcur c rfl
        obtain ⟨r, hr, hrb⟩ :=
          treeClimb_ok pred items nodes item hinv hlen (nodes.length + 1) c hc (by omega)
        exact ⟨r, hr, fun x hx => lt_of_le_of_lt (hrb x hx) hc⟩
    set nodes2 := (match newCur with
      | some p => pushChild nodes p nodes.length
      | none => nodes) with hnodes2
    have hlen2 : nodes2.length = nodes.length := by
      cases newCur <;> simp [hnodes2, pushChild_length]
    have hinv2 : NodesInv nodes2 := by
      cases newCur <;> simp only [hnodes2] <;>
        first
          | exact hinv
          | exact NodesInv_pushChild _ _ _ hinv
    have hbound2 : ∀ x, newCur = some x → x < nodes2.length := by
      intro x hx; rw [hlen2]; exact hbound x hx
    have hinv3 : NodesInv (nodes2 ++ [({ parent := newCur, level := [], children := [] } : TreeNode)]) :=
      NodesInv_append nodes2 newCur hinv2 hbound2
    have hlenNEW : (nodes2 ++ [({ parent := newCur, level := [], children := [] } : TreeNode)]).length
        = nodes.length + 1 := by simp [hlen2]
    obtain ⟨ns, hns, hnslen⟩ := makeTreeGo_ok pred items rest
      (nodes2 ++ [({ parent := newCur, level := [], children := [] } : TreeNode)]) (some nodes.length)
      hinv3 (by rw [hlenNEW]; simp at hcount; omega)
      (by intro c hc; cases Option.some.inj hc; rw [hlenNEW]; omega)
    rw [hlenNEW] at hns hnslen
    refine ⟨ns, ?_, by simp; omega⟩
    simpa [makeTreeGo, hclimb, hnodes2] using hns

theorem write_tree_level_of_children_length (nodes : List TreeNode) (idx : Nat) :
    (write_tree_level_of_children nodes idx).length = nodes.length := by
  unfold write_tree_level_of_children
  cases hn : nodes[idx]? with
  | none => rfl
  | some treenode =>
    have h := foldl_preserve
      (fun (st : List TreeNode × Nat) s =>
        match st.1[s]? with
        | none => st
        | some child =>
          (st.1.set s { child with level := treenode.level ++ [st.2 == 1] }, st.2 - 1))
      (fun st => st.1.length = nodes.length)
      (fun st s hst => by
        cases hc : st.1[s]? with
        | none => simpa [hc] using hst
        | some child => simpa [hc] using hst)
      treenode.children (nodes, treenode.children.length) rfl
    exact h

/-- C9: for every finite item sequence and every predicate (no ordering
contract assumed), `provide_prefix` runs to completion with no panic and no
out-of-bounds access (no `none` in the model) and returns exactly one
prefix per input item, in input order. -/
theorem C9_no_panic {I : Type} (items : List I) (is_parent_of : I → I → Bool) :
    ∃ ps, provide_prefix items is_parent_of = some ps ∧ ps.length = items.length := by
  obtain ⟨ns, hns, hlen⟩ := makeTreeGo_ok is_parent_of items items [] none
    (by intro j n p hj hp; simp at hj) (by simp) (by intro c hc; cases hc)
  refine ⟨(((List.range ns.length).foldl write_tree_level_of_children ns).map
    (fun n => level_to_string n.level)), ?_, ?_⟩
  · unfold provide_prefix make_tree_by_reverse_depth_first
    rw [show makeTreeGo is_parent_of items items 0 none [] = some ns from hns]
  · have hl2 : ((List.range ns.length).foldl write_tree_level_of_children ns).length
        = ns.length := by
      have := foldl_preserve write_tree_level_of_children
        (fun l => l.length = ns.length)
        (fun l i hli => by
          show (write_tree_level_of_children l i).length = ns.length
          rw [write_tree_level_of_children_length]
          exact hli)
        (List.range ns.length) ns rfl
      exact this
    simp [hl2]
    simp at hlen
    exact hlen

example :
    TableSlice.print (fun _ => 1) libTestTable.as_ref
      = ("+-----+----+-----+\n| t1  | t2 | t3  |\n+=====+====+=====+\n"
         ++ "| a   | bc | def |\n+-----+----+-----+\n| def | bc | a   |\n"
         ++ "+-----+----+-----+\n").toList := by decide

/-- C3 (code bug): with padding (0, 0) and a single column of width 1, the
Top separator line is three fill characters plus NEWLINE — the code writes
`width + 2` fills per column with a hardcoded `2`, not
`width + pad_left + pad_right` (which would be 1 here) as claimed. -/
theorem C3_separator_ignores_padding :
    fmtTopOnly.pad_left = 0 ∧ fmtTopOnly.pad_right = 0 ∧
    fmtTopOnly.print_line_separator [1] LinePosition.Top = "---\n".toList := by
  decide

theorem if_lt_max (a b : Nat) : (if a < b then b else a) = max a b := by
  rcases Nat.lt_or_ge a b with h | h
  · rw [if_pos h, Nat.max_eq_right (Nat.le_of_lt h)]
  · rw [if_neg (Nat.not_lt.mpr h), Nat.max_eq_left h]

theorem foldl_if_max_eq {α : Type} (f : α → Nat) :
    ∀ (l : List α) (a : Nat),
      l.foldl (fun w x => if w < f x then f x else w) a = max a ((l.map f).foldr max 0)
  | [], a => by simp
  | x :: l, a => by
    rw [List.foldl_cons, foldl_if_max_eq f l (if a < f x then f x else a), if_lt_max]
    simp [Nat.max_assoc]

/-- C4 counterexample: a table whose title row has one cell and whose body
is empty has `get_column_num` 0 (and an empty width vector), while the
claimed count — the maximum over body rows AND the title row — is 1. -/
theorem C4_title_not_counted :
    titleOnlyTable.as_ref.get_column_num = 0 ∧
    claimColumnNum titleOnlyTable.as_ref = 1 ∧
    titleOnlyTable.as_ref.get_all_column_width.length = 0 := by
  decide

/-- C4 (amended): the layout column count is the maximum BODY row length —
the title row is NOT consulted, so a long title row does not extend the
column count — and the computed width vector has exactly that length. -/
theorem C4_column_num (ts : TableSlice) :
    ts.get_column_num = (ts.rows.map Row.len).foldr max 0 ∧
    ts.get_all_column_width.length = ts.get_column_num := by
  constructor
  · unfold TableSlice.get_column_num
    rw [foldl_if_max_eq Row.len ts.rows 0]
    simp
  · unfold TableSlice.get_all_column_width
    exact foldl_preserve _ (fun l => l.length = ts.get_column_num)
      (fun l i hl => by
        show (l.set i (ts.get_column_width i)).length = ts.get_column_num
        rw [List.length_set]; exact hl)
      (List.range ts.get_column_num) (List.replicate ts.get_column_num 0) (by simp)

/-- C5: the computed width of column `i` is the maximum of the cell display
width at index `i` over the title row (when present) and every body row,
with rows lacking a cell at `i` contributing 0. -/
theorem C5_column_width (ts : TableSlice) (i : Nat) :
    ts.get_column_width i =
      (((match ts.titles with | some tt => [tt] | none => []) ++ ts.rows).map
        (fun r => r.get_cell_width i)).foldr max 0 := by
  unfold TableSlice.get_column_width
  cases ht : ts.titles with
  | none =>
    rw [foldl_if_max_eq (fun r => r.get_cell_width i) ts.rows 0]
    simp
  | some tt =>
    rw [foldl_if_max_eq (fun r => r.get_cell_width i) ts.rows (tt.get_cell_width i)]
    simp

theorem sliceRange_comp {α : Type} (l : List α) (a b c d : Nat)
    (hab : a ≤ b) (hd : d ≤ b - a) :
    sliceRange (sliceRange l a b) c d = sliceRange l (a + c) (a + d) := by
  have had : a + d ≤ b := by omega
  unfold sliceRange
  rw [List.take_drop, List.take_take, Nat.min_eq_left had, List.drop_drop]

/-- C7: for valid bounds (`a ≤ b ≤ len`, `c ≤ d ≤ b - a`),
`t.slice(a..b).slice(c..d)` renders byte-identically to
`t.slice(a+c..a+d)`, and the double slice shares the parent table's format
and titles. -/
theorem C7_slice_comp (cw : Char → Nat) (t : Table) (a b c d : Nat)
    (hab : a ≤ b) (hb : b ≤ t.rows.length) (hcd : c ≤ d) (hd : d ≤ b - a) :
    TableSlice.print cw ((t.slice a b).slice c d)
      = TableSlice.print cw (t.slice (a + c) (a + d)) ∧
    ((t.slice a b).slice c d).format = t.format ∧
    ((t.slice a b).slice c d).titles = t.titles := by
  have heq : (t.slice a b).slice c d = t.slice (a + c) (a + d) := by
    unfold Table.slice TableSlice.slice
    rw [sliceRange_comp t.rows a b c d hab hd]
  exact ⟨by rw [heq], rfl, rfl⟩

theorem C7_slice_comp_witness :
    ((1 : Nat) ≤ 3 ∧ 3 ≤ exTable3.rows.length ∧ (0 : Nat) ≤ 2 ∧ 2 ≤ 3 - 1) ∧
    (TableSlice.print (fun _ => 1) ((exTable3.slice 1 3).slice 0 2)
      = TableSlice.print (fun _ => 1) (exTable3.slice (1 + 0) (1 + 2)) ∧
    ((exTable3.slice 1 3).slice 0 2).format = exTable3.format ∧
    ((exTable3.slice 1 3).slice 0 2).titles = exTable3.titles) :=
  ⟨⟨by decide, by decide, by decide, by decide⟩,
    C7_slice_comp (fun _ => 1) exTable3 1 3 0 2 (by decide) (by decide) (by decide) (by decide)⟩

theorem set_getElem?_self {α : Type} :
    ∀ (l : List α) (i : Nat) (a : α), l[i]? = some a → l.set i a = l
  | [], i, a, h => by simp at h
  | x :: l, 0, a, h => by
    simp at h
    simp [h]
  | x :: l, i + 1, a, h => by
    simp at h
    simp [set_getElem?_self l i a h]

/-- C8: when the requested cell does not exist — the row index is out of
range, or the row exists but the column index is out of range —
`set_element` reports a "not found" error ("Cannot find row" or
"Cannot find cell") and returns the table completely unchanged (hence it
never grows the table; and being total, it never crashes). -/
theorem C8_set_element_not_found (cw : Char → Nat) (t : Table) (element : List Char)
    (column row : Nat)
    (h : ∀ r : Row, t.rows[row]? = some r → r.len ≤ column) :
    (t.set_element cw element column row).1 = t ∧
    ((t.set_element cw element column row).2 = some "Cannot find row" ∨
     (t.set_element cw element column row).2 = some "Cannot find cell") := by
  cases hr : t.rows[row]? with
  | none =>
    constructor
    · simp [Table.set_element, hr]
    · left
      simp [Table.set_element, hr]
  | some rowline =>
    have hcol : rowline.len ≤ column := h rowline hr
    have hset : rowline.set_cell (Cell.new cw element) column
        = (rowline, some "Cannot find cell") := by
      unfold Row.set_cell
      rw [if_pos hcol]
    constructor
    · simp [Table.set_element, hr, hset, set_getElem?_self t.rows row rowline hr]
    · right
      simp [Table.set_element, hr, hset]

theorem C8_set_element_not_found_witness :
    (∀ r : Row, exTable1.rows[0]? = some r → r.len ≤ 5) ∧
    ((exTable1.set_element (fun _ => 1) "z".toList 5 0).1 = exTable1 ∧
     ((exTable1.set_element (fun _ => 1) "z".toList 5 0).2 = some "Cannot find row" ∨
      (exTable1.set_element (fun _ => 1) "z".toList 5 0).2 = some "Cannot find cell")) := by
  have hyp : ∀ r : Row, exTable1.rows[0]? = some r → r.len ≤ 5 := by
    intro r hr
    simp [exTable1] at hr
    rw [← hr]
    decide
  exact ⟨hyp, C8_set_element_not_found (fun _ => 1) exTable1 "z".toList 5 0 hyp⟩

end PrettyTable
